import Mathlib

/-!
Verification of the inspection pipeline of the `rust-mcp` repository.

The development shallowly embeds the pure fragments of the source files
`src/compiler/extract.rs`, `src/inspection.rs`, `src/compiler/runner.rs`,
`src/analyzer/client.rs` and `src/server/handler.rs` as executable Lean
definitions, and proves the spec-level properties about them.

Strings are modelled by Lean `String` (a wrapper around `List Char`);
Rust's byte-oriented primitives (`str::len`, `str::contains`, ...) are
re-implemented on the character list, which is faithful for valid UTF-8
inputs (UTF-8 is self-synchronizing, so a byte-level substring match of a
valid encoding always falls on character boundaries).
-/

/-! ## Rust string primitives, modelled on `List Char` -/

/-- UTF-8 byte length of a character list; models Rust `str::len` /
`as_bytes().len()` on the decoded characters. -/
def utf8Len : List Char → Nat
  | [] => 0
  | c :: cs => c.utf8Size + utf8Len cs

/-- UTF-8 byte length of a string; models Rust `str::len`. -/
def byteLen (s : String) : Nat := utf8Len s.data

/-- The `leadsWith hay needle` is true when `needle` occurs at the very front of
`hay`; models Rust `str::starts_with` on character lists. -/
def leadsWith : List Char → List Char → Bool
  | _, [] => true
  | [], _ :: _ => false
  | h :: hs, n :: ns => (h == n) && leadsWith hs ns

/-- Substring containment on character lists; models Rust `str::contains`
with a string pattern. -/
def seqContains : List Char → List Char → Bool
  | hay, needle =>
    match hay with
    | [] => needle.isEmpty
    | _ :: t => leadsWith hay needle || seqContains t needle

/-- Rust `str::contains` with a string pattern. -/
def scontains (hay needle : String) : Bool := seqContains hay.data needle.data

/-- Rust `str::starts_with` with a string pattern. -/
def sstarts (s pat : String) : Bool := leadsWith s.data pat.data

/-- Rust `str::ends_with` with a string pattern. -/
def sends (s pat : String) : Bool := leadsWith s.data.reverse pat.data.reverse

/-- The Unicode `White_Space` class, as used by Rust `char::is_whitespace`. -/
def rustIsWhitespace (c : Char) : Bool :=
  c == ' ' || c == '\t' || c == '\n' || c == '\r' ||
  c == '\x0b' || c == '\x0c' ||
  c.toNat == 0x85 || c.toNat == 0xA0 || c.toNat == 0x1680 ||
  (0x2000 ≤ c.toNat && c.toNat ≤ 0x200A) ||
  c.toNat == 0x2028 || c.toNat == 0x2029 || c.toNat == 0x202F ||
  c.toNat == 0x205F || c.toNat == 0x3000

/-- Rust `str::trim_start`. -/
def rustTrimStart (s : String) : String :=
  String.mk (s.data.dropWhile rustIsWhitespace)

/-- Rust `str::trim_end`. -/
def rustTrimEnd (s : String) : String :=
  String.mk ((s.data.reverse.dropWhile rustIsWhitespace).reverse)

/-- Rust `str::trim`. -/
def rustTrim (s : String) : String := rustTrimEnd (rustTrimStart s)

/-- Drop every trailing occurrence of `m`; models Rust
`str::trim_end_matches` with a char pattern. -/
def trimEndMatchesChar (s : String) (m : Char) : String :=
  String.mk ((s.data.reverse.dropWhile (· == m)).reverse)

/-- Drop every leading and trailing occurrence of `m`; models Rust
`str::trim_matches` with a char pattern. -/
def trimMatchesChar (s : String) (m : Char) : String :=
  String.mk (((s.data.dropWhile (· == m)).reverse.dropWhile (· == m)).reverse)

/-- Split a character list at every occurrence of `sep`; models Rust
`str::split` with a char pattern (always yields at least one piece). -/
def splitOnChar (sep : Char) : List Char → List (List Char)
  | [] => [[]]
  | c :: cs =>
    let rest := splitOnChar sep cs
    if c == sep then [] :: rest
    else
      match rest with
      | [] => [[c]]
      | r :: rs => (c :: r) :: rs

/-- Strip one trailing carriage return, as Rust `str::lines` does per line. -/
def stripCR (l : List Char) : List Char :=
  if l.getLast? = some '\r' then l.dropLast else l

/-- Rust `str::lines`: split at `'\n'`, drop the trailing empty piece that a
final newline produces (terminator semantics), strip a trailing `'\r'` from
each line. -/
def rustLines (s : String) : List String :=
  let parts := splitOnChar '\n' s.data
  let parts := if parts.getLast? = some [] then parts.dropLast else parts
  parts.map (fun l => String.mk (stripCR l))

/-- Rust `u8::to_ascii_lowercase` on a character (ASCII letters only). -/
def asciiLowerChar (c : Char) : Char :=
  if 65 ≤ c.toNat ∧ c.toNat ≤ 90 then Char.ofNat (c.toNat + 32) else c

/-- Rust `str::to_ascii_lowercase`. -/
def asciiLowerStr (s : String) : String := String.mk (s.data.map asciiLowerChar)

/-! ## `src/compiler/extract.rs`: data model -/

/-- Symbol kinds, from `src/analyzer/symbol.rs` (not shipped under `src/`;
the variants are those used by `extract.rs` and `handler.rs` and listed in
the spec's data model: `kind ∈ \x7bFreeFunction, Method, Type, …\x7d`). -/
inductive SymbolKind where
  | FreeFunction
  | Method
  | TypeKind
  | Other
deriving DecidableEq

/-- The `SymbolIdentity` from `src/analyzer/symbol.rs` (declaration not under
`src/`; fields taken from its uses in `extract.rs`/`handler.rs` and the
spec's data model: crate name, ordered module path, innermost item name,
kind). -/
structure SymbolIdentity where
  crate_name : String
  module_path : List String
  item_name : String
  kind : SymbolKind
deriving DecidableEq

/-- The `encode_rust_mangled_prefix` from `extract.rs` (renamed: Lean name
restrictions): start from `"_ZN"` and append, per segment, the decimal byte
length of the segment followed by the segment. -/
def encodeRustMangled (segments : List String) : String :=
  segments.foldl (fun encoded segment => encoded ++ toString (byteLen segment) ++ segment) "_ZN"

/-- The `NormalizedSymbol` from `extract.rs`. The private Rust field
`mangled_prefix` is modelled by the field `manglePre`. -/
structure NormalizedSymbol where
  def_name : String
  item_name : String
  mangled : Option String
  target : Option String
  manglePre : String
deriving DecidableEq

/-- The `NormalizedSymbol::from_identity`: segments are
`[crate_name] ++ module_path ++ [item_name]`; `def_name` joins them with
`"::"` and the mangling pre-string is derived from the same segments. -/
def NormalizedSymbol.from_identity (identity : SymbolIdentity) : NormalizedSymbol :=
  let segments := [identity.crate_name] ++ identity.module_path ++ [identity.item_name]
  { def_name := String.intercalate "::" segments
    item_name := identity.item_name
    mangled := none
    target := none
    manglePre := encodeRustMangled segments }

/-- The `NormalizedSymbol::with_mangled`. -/
def NormalizedSymbol.with_mangled (s : NormalizedSymbol) (m : String) : NormalizedSymbol :=
  { s with mangled := some m }

/-- The `NormalizedSymbol::with_target`. -/
def NormalizedSymbol.with_target (s : NormalizedSymbol) (t : String) : NormalizedSymbol :=
  { s with target := some t }

/-- The `TargetedAssembly` from `extract.rs`. -/
structure TargetedAssembly where
  target : String
  content : String
deriving DecidableEq

/-- The `Candidate` from `extract.rs`. -/
structure Candidate where
  header : String
  content : String
deriving DecidableEq

/-- Decidable equality of extraction results, so that concrete runs can be
checked by `decide`. -/
instance : DecidableEq (Except String String) := fun a b =>
  match a, b with
  | .ok x, .ok y =>
    if h : x = y then isTrue (by rw [h]) else isFalse (by simp [h])
  | .error x, .error y =>
    if h : x = y then isTrue (by rw [h]) else isFalse (by simp [h])
  | .ok _, .error _ => isFalse (by simp)
  | .error _, .ok _ => isFalse (by simp)

/-! ## `src/compiler/extract.rs`: block splitting -/

/-- The `is_mir_header` from `extract.rs`. -/
def is_mir_header (line : String) : Bool :=
  let trimmed := rustTrimStart line
  sstarts trimmed "fn " || sstarts trimmed "const " ||
  sstarts trimmed "static " || sstarts trimmed "promoted["

/-- The `block_header` from `extract.rs`: the trimmed first line of a block. -/
def block_header (block : String) : String :=
  rustTrim ((rustLines block).headD "")

/-- Loop body of `split_mir_blocks`, one recursive step per input line.
State: the block being accumulated (`current`) and whether a header has been
seen (`capturing`); finished blocks are emitted trimmed, in order. -/
def splitMirGo : List String → String → Bool → List String
  | [], current, capturing =>
    if capturing && current ≠ "" then [rustTrim current] else []
  | line :: rest, current, capturing =>
    let step :=
      if is_mir_header line then
        if capturing && current ≠ "" then ([rustTrim current], "", true)
        else (([] : List String), current, true)
      else ([], current, capturing)
    match step with
    | (flushed, current1, capturing1) =>
      let current2 :=
        if capturing1 then
          if current1 ≠ "" then current1 ++ "\n" ++ line else current1 ++ line
        else current1
      flushed ++ splitMirGo rest current2 capturing1

/-- The `split_mir_blocks` from `extract.rs`. -/
def split_mir_blocks (output : String) : List String :=
  splitMirGo (rustLines output) "" false

/-- The `extract_llvm_symbol_name` from `extract.rs`: the text after the first
`@` up to the first `(`, with surrounding double quotes trimmed. -/
def extract_llvm_symbol_name (line : String) : Option String :=
  match splitOnChar '@' line.data with
  | _ :: after_at :: _ =>
    match splitOnChar '(' after_at with
    | name_part :: _ => some (trimMatchesChar (String.mk name_part) '"')
    | [] => none
  | _ => none

/-- Loop body of `split_llvm_blocks`, one recursive step per input line.
State: the name of the `define` being accumulated (if any) and its lines. -/
def splitLlvmGo : List String → Option String → List String → List (String × String)
  | [], current_name, current_lines =>
    (match current_name with
     | some name => [(name, String.intercalate "\n" current_lines)]
     | none => [])
  | line :: rest, current_name, current_lines =>
    let step :=
      if sstarts (rustTrimStart line) "define" then
        match current_name with
        | some name =>
          ([(name, String.intercalate "\n" current_lines)],
           extract_llvm_symbol_name line, ([] : List String))
        | none => ([], extract_llvm_symbol_name line, current_lines)
      else ([], current_name, current_lines)
    match step with
    | (flushed, name1, lines1) =>
      let lines2 := if name1.isSome then lines1 ++ [line] else lines1
      flushed ++ splitLlvmGo rest name1 lines2

/-- The `split_llvm_blocks` from `extract.rs`. -/
def split_llvm_blocks (output : String) : List (String × String) :=
  splitLlvmGo (rustLines output) none []

/-- Loop body of `split_asm_blocks`, one recursive step per input line.
A label line is one whose trimmed form ends with `':'` and does not start
with `'#'`; the label is stored with the trailing colons and surrounding
double quotes removed. -/
def splitAsmGo : List String → Option String → List String → List (String × String)
  | [], current_label, current_lines =>
    (match current_label with
     | some label => [(label, String.intercalate "\n" current_lines)]
     | none => [])
  | line :: rest, current_label, current_lines =>
    let trimmed := rustTrim line
    let step :=
      if sends trimmed ":" && !sstarts trimmed "#" then
        match current_label with
        | some label =>
          ([(label, String.intercalate "\n" current_lines)],
           some (trimMatchesChar (trimEndMatchesChar trimmed ':') '"'), ([] : List String))
        | none =>
          ([], some (trimMatchesChar (trimEndMatchesChar trimmed ':') '"'), current_lines)
      else ([], current_label, current_lines)
    match step with
    | (flushed, label1, lines1) =>
      let lines2 := if label1.isSome then lines1 ++ [line] else lines1
      flushed ++ splitAsmGo rest label1 lines2

/-- The `split_asm_blocks` from `extract.rs`. -/
def split_asm_blocks (output : String) : List (String × String) :=
  splitAsmGo (rustLines output) none []

/-! ## `src/compiler/extract.rs`: selection -/

/-- The list of names `select_unique_match` reports in its no-match error:
def-name, item name, then the mangled name when known, otherwise the
mangling pre-string when non-empty. -/
def lookedForList (symbol : NormalizedSymbol) : List String :=
  ["def-name `" ++ symbol.def_name ++ "`",
   "item name `" ++ symbol.item_name ++ "`"] ++
  (match symbol.mangled with
   | some mangled => ["mangled `" ++ mangled ++ "`"]
   | none =>
     if symbol.manglePre ≠ "" then
       ["mangled prefix `" ++ symbol.manglePre ++ "`"]
     else [])

/-- The `bail!` message of `select_unique_match` when no candidate matched. -/
def noMatchMessage (what : String) (symbol : NormalizedSymbol) : String :=
  "No " ++ what ++ " match found for `" ++ symbol.def_name ++ "` (looked for " ++
    String.intercalate ", " (lookedForList symbol) ++ ")"

/-- The `bail!` message of `select_unique_match` when several candidates
matched; it lists every candidate header. -/
def ambiguousMessage (what : String) (symbol : NormalizedSymbol)
    (headers : List String) : String :=
  "Multiple " ++ what ++ " candidates matched `" ++ symbol.def_name ++ "`: " ++
    String.intercalate ", " headers

/-- The `select_unique_match` from `extract.rs`: error on zero candidates, the
single candidate's content on one, error listing all headers on several. -/
def select_unique_match (cands : List Candidate) (what : String)
    (symbol : NormalizedSymbol) : Except String String :=
  match cands with
  | [] => .error (noMatchMessage what symbol)
  | [m] => .ok m.content
  | ms => .error (ambiguousMessage what symbol (ms.map (·.header)))

/-- Tier classification loop of `extract_mir`: a block containing the
def-name goes to the first list, otherwise one containing the item name goes
to the second, in input order. -/
def mirTiers (blocks : List String) (symbol : NormalizedSymbol) :
    List Candidate × List Candidate :=
  match blocks with
  | [] => ([], [])
  | block :: rest =>
    let prev := mirTiers rest symbol
    if scontains block symbol.def_name then
      ({ header := block_header block, content := block } :: prev.1, prev.2)
    else if scontains block symbol.item_name then
      (prev.1, { header := block_header block, content := block } :: prev.2)
    else prev

/-- The `extract_mir` from `extract.rs`. -/
def extract_mir (mir_outputs : List String) (symbol : NormalizedSymbol) :
    Except String String :=
  let tiers := mirTiers (mir_outputs.flatMap split_mir_blocks) symbol
  let selected := if !tiers.1.isEmpty then tiers.1 else tiers.2
  select_unique_match selected "MIR" symbol

/-- Whether a named LLVM block is an exact mangled match (Tier 1). -/
def llvmTier1 (symbol : NormalizedSymbol) (nb : String × String) : Bool :=
  match symbol.mangled with
  | some mangled => scontains nb.1 mangled
  | none => false

/-- Whether a named LLVM block matches the mangling pre-string (Tier 2). -/
def llvmTier2 (symbol : NormalizedSymbol) (nb : String × String) : Bool :=
  symbol.manglePre ≠ "" && scontains nb.1 symbol.manglePre

/-- Whether an LLVM block's body contains the def-name (Tier 3). -/
def llvmTier3 (symbol : NormalizedSymbol) (nb : String × String) : Bool :=
  scontains nb.2 symbol.def_name

/-- Tier classification loop of `extract_llvm_ir`: each `(name, block)`
pair is appended to the list of the highest tier it matches (the Rust loop
uses `continue` after each push), in input order. -/
def llvmTiers (blocks : List (String × String)) (symbol : NormalizedSymbol) :
    List Candidate × List Candidate × List Candidate :=
  match blocks with
  | [] => ([], [], [])
  | nb :: rest =>
    let prev := llvmTiers rest symbol
    if llvmTier1 symbol nb then
      ({ header := nb.1, content := nb.2 } :: prev.1, prev.2.1, prev.2.2)
    else if llvmTier2 symbol nb then
      (prev.1, { header := nb.1, content := nb.2 } :: prev.2.1, prev.2.2)
    else if llvmTier3 symbol nb then
      (prev.1, prev.2.1, { header := nb.1, content := nb.2 } :: prev.2.2)
    else prev

/-- The `extract_llvm_ir` from `extract.rs`. -/
def extract_llvm_ir (llvm_outputs : List String) (symbol : NormalizedSymbol) :
    Except String String :=
  let tiers := llvmTiers (llvm_outputs.flatMap split_llvm_blocks) symbol
  if !tiers.1.isEmpty then
    select_unique_match tiers.1 "LLVM IR" symbol
  else if !tiers.2.1.isEmpty then
    select_unique_match tiers.2.1 "LLVM IR (prefix)" symbol
  else
    select_unique_match tiers.2.2 "LLVM IR" symbol

/-- Whether a labelled assembly block is an exact mangled match (Tier 1). -/
def asmTier1 (symbol : NormalizedSymbol) (lb : String × String) : Bool :=
  match symbol.mangled with
  | some mangled => scontains lb.1 mangled
  | none => false

/-- Whether an assembly label matches the mangling pre-string (Tier 2). -/
def asmTier2 (symbol : NormalizedSymbol) (lb : String × String) : Bool :=
  symbol.manglePre ≠ "" && scontains lb.1 symbol.manglePre

/-- Whether an assembly block contains the def-name or item name (Tier 3). -/
def asmTier3 (symbol : NormalizedSymbol) (lb : String × String) : Bool :=
  scontains lb.2 symbol.def_name || scontains lb.2 symbol.item_name

/-- Tier classification loop of `extract_asm`, as for LLVM IR. -/
def asmTiers (blocks : List (String × String)) (symbol : NormalizedSymbol) :
    List Candidate × List Candidate × List Candidate :=
  match blocks with
  | [] => ([], [], [])
  | lb :: rest =>
    let prev := asmTiers rest symbol
    if asmTier1 symbol lb then
      ({ header := lb.1, content := lb.2 } :: prev.1, prev.2.1, prev.2.2)
    else if asmTier2 symbol lb then
      (prev.1, { header := lb.1, content := lb.2 } :: prev.2.1, prev.2.2)
    else if asmTier3 symbol lb then
      (prev.1, prev.2.1, { header := lb.1, content := lb.2 } :: prev.2.2)
    else prev

/-- The assemblies `extract_asm` actually searches: those whose `target`
equals the requested triple. -/
def relevantAssemblies (assemblies : List TargetedAssembly) (target_triple : String) :
    List TargetedAssembly :=
  assemblies.filter (fun asm => asm.target = target_triple)

/-- All labelled blocks of the assemblies for the requested triple. -/
def asmTargetBlocks (assemblies : List TargetedAssembly) (target_triple : String) :
    List (String × String) :=
  (relevantAssemblies assemblies target_triple).flatMap
    (fun asm => split_asm_blocks asm.content)

/-- The `bail!` message of `extract_asm` when no assembly has the requested
target triple. -/
def noTargetMessage (target_triple : String) (symbol : NormalizedSymbol) : String :=
  "No assembly artifacts available for target `" ++ target_triple ++
    "` while searching for `" ++ symbol.def_name ++ "`"

/-- The `extract_asm` from `extract.rs`: `found_target` records whether any
assembly carried the requested triple; the tier ladder then runs over the
blocks of exactly those assemblies. -/
def extract_asm (assemblies : List TargetedAssembly) (symbol : NormalizedSymbol)
    (target_triple : String) : Except String String :=
  let found_target := !(relevantAssemblies assemblies target_triple).isEmpty
  let tiers := asmTiers (asmTargetBlocks assemblies target_triple) symbol
  if !found_target then
    .error (noTargetMessage target_triple symbol)
  else if !tiers.1.isEmpty then
    select_unique_match tiers.1 "assembly" symbol
  else if !tiers.2.1.isEmpty then
    select_unique_match tiers.2.1 "assembly (prefix)" symbol
  else
    select_unique_match tiers.2.2 "assembly" symbol

/-! ## `src/inspection.rs`: gating and limits -/

/-- The `GatingMode` from `inspection.rs`; `Default` is `Strict`. -/
inductive GatingMode where
  | Strict
  | Lenient
deriving DecidableEq

/-- Rust `matches!(gating_mode, GatingMode::Strict)`. -/
def GatingMode.isStrict : GatingMode → Bool
  | .Strict => true
  | .Lenient => false

/-- The `GatingMode::from_str`: ASCII-lowercase the input, accept exactly
`"lenient"` and `"strict"`; `Err(())` is modelled as `none`. -/
def GatingMode.from_str (s : String) : Option GatingMode :=
  let lowered := asciiLowerStr s
  if lowered = "lenient" then some GatingMode.Lenient
  else if lowered = "strict" then some GatingMode.Strict
  else none

/-- The `default_gating_mode_from_env` from `inspection.rs`; the environment is
passed explicitly (`none` models an unset or unreadable `MCP_GATING_MODE`).
`unwrap_or_default` falls back to `GatingMode::default()`, i.e. `Strict`. -/
def default_gating_mode_from_env (env_value : Option String) : GatingMode :=
  match env_value with
  | some value => (GatingMode.from_str value).getD GatingMode.Strict
  | none => GatingMode.Strict

/-- The `ToolchainChannel` from `inspection.rs`. -/
inductive ToolchainChannel where
  | Stable
  | Nightly
  | Dev
deriving DecidableEq

/-- The `ToolchainChannel::is_nightly_like`. -/
def ToolchainChannel.is_nightly_like : ToolchainChannel → Bool
  | .Stable => false
  | .Nightly => true
  | .Dev => true

/-- The `InspectionLimits` from `inspection.rs` (`usize` as `Nat`). -/
structure InspectionLimits where
  timeout_seconds : Nat
  max_output_bytes : Nat
  max_output_lines : Nat
deriving DecidableEq

/-- The `TruncationSummary` from `inspection.rs`. -/
structure TruncationSummary where
  original_bytes : Nat
  original_lines : Nat
  kept_bytes : Nat
  kept_lines : Nat
  max_bytes : Nat
  max_lines : Nat
deriving DecidableEq

/-- The `InspectionView` from `inspection.rs`. -/
structure InspectionView where
  name : String
  description : String
  requires_nightly : Bool
  emit : Option String
  unpretty : Option String
deriving DecidableEq

/-- The `is_view_advertised` from `inspection.rs`: false exactly when the view
requires nightly, the channel is not nightly-like, and gating is strict. -/
def is_view_advertised (view : InspectionView) (channel : ToolchainChannel)
    (gating_mode : GatingMode) : Bool :=
  if view.requires_nightly && !channel.is_nightly_like && gating_mode.isStrict then
    false
  else
    true

/-- The `is_view_runnable` from `inspection.rs`. -/
def is_view_runnable (view : InspectionView) (channel : ToolchainChannel) : Bool :=
  !(view.requires_nightly && !channel.is_nightly_like)

/-- Loop of `truncate_with_limits`: walk the lines accumulating kept bytes
(line plus its newline) and kept lines, stopping before the first line whose
inclusion would exceed either bound. Returns final kept bytes, kept lines
and the kept lines themselves. -/
def keepLinesGo (lines : List String) (maxB maxL kb kl : Nat) :
    Nat × Nat × List String :=
  match lines with
  | [] => (kb, kl, [])
  | line :: rest =>
    let next_bytes := kb + byteLen (line ++ "\n")
    let next_lines := kl + 1
    if next_bytes > maxB ∨ next_lines > maxL then (kb, kl, [])
    else
      let r := keepLinesGo rest maxB maxL next_bytes next_lines
      (r.1, r.2.1, line :: r.2.2)

/-- The marker `truncate_with_limits` appends (including its leading
newline, which makes it a line of its own). -/
def truncationMarker (kept_lines kept_bytes original_lines original_bytes
    max_lines max_bytes : Nat) : String :=
  "\n[truncated after " ++ toString kept_lines ++ " lines/" ++
    toString kept_bytes ++ " bytes; original " ++ toString original_lines ++
    " lines/" ++ toString original_bytes ++ " bytes; limits " ++
    toString max_lines ++ " lines/" ++ toString max_bytes ++ " bytes]"

/-- The `truncate_with_limits` from `inspection.rs`. -/
def truncate_with_limits (text : String) (limits : InspectionLimits) :
    String × Bool × Option TruncationSummary :=
  let original_bytes := byteLen text
  let original_lines := (rustLines text).length
  if original_bytes ≤ limits.max_output_bytes ∧
      original_lines ≤ limits.max_output_lines then
    (text, false, none)
  else
    let r := keepLinesGo (rustLines text) limits.max_output_bytes
      limits.max_output_lines 0 0
    let truncated_output := String.join (r.2.2.map (fun line => line ++ "\n"))
    let marker := truncationMarker r.2.1 r.1 original_lines
      original_bytes limits.max_output_lines limits.max_output_bytes
    (truncated_output ++ marker, true,
      some { original_bytes := original_bytes, original_lines := original_lines,
             kept_bytes := r.1, kept_lines := r.2.1,
             max_bytes := limits.max_output_bytes,
             max_lines := limits.max_output_lines })

/-- Total size in bytes of a list of kept lines, a trailing newline counted
per line — the quantity `truncate_with_limits` accumulates in `kept_bytes`. -/
def sumB : List String → Nat
  | [] => 0
  | line :: rest => byteLen (line ++ "\n") + sumB rest

/-- The number of lines `truncate_with_limits` keeps for a given text. -/
def keptCount (text : String) (limits : InspectionLimits) : Nat :=
  (keepLinesGo (rustLines text) limits.max_output_bytes
    limits.max_output_lines 0 0).2.1

/-! ## `src/compiler/runner.rs`: command vector and artifact diff -/

/-- The `RunRequest` from `runner.rs` (`PathBuf` as `String`). -/
structure RunRequest where
  manifest_path : Option String
  package : Option String
  target_triple : Option String
  opt_level : Option String
  emit : Option String
  unpretty : Option String
  additional_rustc_args : List String
  env : List (String × String)
deriving DecidableEq

/-- The `command_line` vector assembled by `CompilerRunner::run`, push by
push: `cargo rustc --offline`, the optional pre-separator flags, the `--`
separator (emitted in both branches of the `opt_level` match), then
`-Copt-level`, `--emit`, `-Zunpretty` and the additional rustc args. -/
def build_command_line (request : RunRequest) : List String :=
  let cl := ["cargo", "rustc", "--offline"]
  let cl := cl ++ (match request.manifest_path with
    | some p => ["--manifest-path", p]
    | none => [])
  let cl := cl ++ (match request.package with
    | some p => ["--package", p]
    | none => [])
  let cl := cl ++ (match request.target_triple with
    | some t => ["--target", t]
    | none => [])
  let cl := cl ++ (match request.opt_level with
    | some o => ["--", "-Copt-level=" ++ o]
    | none => ["--"])
  let cl := cl ++ (match request.emit with
    | some e => ["--emit=" ++ e]
    | none => [])
  let cl := cl ++ (match request.unpretty with
    | some u => ["-Zunpretty=" ++ u]
    | none => [])
  cl ++ request.additional_rustc_args

/-- The `diff_paths` from `runner.rs`: the after-snapshot minus the
before-snapshot, each relative survivor joined under the root. Paths
(`PathBuf`) are modelled as their lists of components, `Path::join` as list
append; the Rust function collects a `HashSet` difference into a `Vec`
(iteration order unspecified), modelled as a `Finset`. -/
def diff_paths (before after : Finset (List String)) (root : List String) :
    Finset (List String) :=
  (after \ before).image (fun rel => root ++ rel)

/-! ## `src/analyzer/client.rs`: position containment -/

/-- LSP `Position` from `analyzer/protocol.rs` (`u32` as `Nat`). -/
structure Position where
  line : Nat
  character : Nat
deriving DecidableEq

/-- LSP `Range` from `analyzer/protocol.rs`. The Rust field `end` is a
reserved word in Lean and is modelled as `endPos`. -/
structure Range where
  start : Position
  endPos : Position
deriving DecidableEq

/-- The `RustAnalyzerClient::position_in_range` from `client.rs`. -/
def position_in_range (range : Range) (position : Position) : Bool :=
  let starts_before := decide (range.start.line < position.line) ||
    (decide (range.start.line = position.line) &&
     decide (range.start.character ≤ position.character))
  let ends_after := decide (range.endPos.line > position.line) ||
    (decide (range.endPos.line = position.line) &&
     decide (range.endPos.character ≥ position.character))
  starts_before && ends_after

/-! ## `src/server/handler.rs`: symbol-name override -/

/-- The pure tail of `RustMcpServer::resolve_normalized_symbol`
(handler.rs): once the language server has produced a `SymbolIdentity`, an
explicit `symbol_name` parameter replaces the identity's `item_name`
*before* `NormalizedSymbol::from_identity` runs, and an explicit `target`
is attached afterwards. -/
def resolve_symbol_tail (identity : SymbolIdentity) (symbol_name : Option String)
    (target : Option String) : NormalizedSymbol :=
  let identity1 :=
    match symbol_name with
    | some name => { identity with item_name := name }
    | none => identity
  let normalized := NormalizedSymbol.from_identity identity1
  match target with
  | some t => normalized.with_target t
  | none => normalized

/-! ## Spec-side definitions -/

/-- Spec-side selection ladder, following the spec's words: select from the
first non-empty tier; exactly one candidate means its content, zero in all
tiers means the no-match error, several in the selected tier means the
ambiguity error listing the candidate headers. Each tier carries the label
the source passes to `select_unique_match` for it. -/
def ladderSpec (tiers : List (String × List Candidate)) (empty_what : String)
    (symbol : NormalizedSymbol) : Except String String :=
  match tiers.find? (fun t => !t.2.isEmpty) with
  | none => .error (noMatchMessage empty_what symbol)
  | some (what, cands) =>
    match cands with
    | [c] => .ok c.content
    | cs => .error (ambiguousMessage what symbol (cs.map (·.header)))

/-- Spec-side encoding of the claim `mangled_prefix == "_ZN" ++
concat(len(seg) ++ seg for seg in segments)`: the concatenation, per
segment, of the decimal byte length followed by the segment. -/
def specLenConcat : List String → String
  | [] => ""
  | s :: rest => toString (byteLen s) ++ s ++ specLenConcat rest

/-- Lexicographic line-then-character order on positions (spec-side, for
stating the containment characterization). -/
def posLe (a b : Position) : Prop :=
  a.line < b.line ∨ (a.line = b.line ∧ a.character ≤ b.character)

/-! ## Concrete example inputs (used by the witness theorems) -/

/-- The `demo::utils::do_thing` free function of the source's test suite. -/
def demoIdentity : SymbolIdentity :=
  { crate_name := "demo", module_path := ["utils"], item_name := "do_thing",
    kind := SymbolKind.FreeFunction }

/-- Its normalized form. -/
def demoSymbol : NormalizedSymbol := NormalizedSymbol.from_identity demoIdentity

/-- A small MIR artifact holding two functions of the `demo` crate. -/
def demoMir : String :=
  "fn demo::utils::do_thing(_1: i32) -> i32 \x7b\n    bb0: \x7b\n        _0 = _1;\n        return;\n    \x7d\n\x7d\nfn demo::utils::other(_1: i32) -> i32 \x7b\n    bb0: \x7b return; \x7d\n\x7d"

/-- A small assembly artifact for the x86-64 Linux triple. -/
def demoAsm : TargetedAssembly :=
  { target := "x86_64-unknown-linux-gnu",
    content := "_ZN4demo5utils8do_thing17h1234abcdE:\n    retq\n_ZN4demo5utils9do_other17h99999999E:\n    retq" }

/-! ## Helper lemmas -/

theorem foldl_encode (segs : List String) : ∀ init : String,
    List.foldl (fun e s => e ++ toString (byteLen s) ++ s) init segs =
      init ++ specLenConcat segs := by
  induction segs with
  | nil => intro init; simp [specLenConcat, String.append_empty]
  | cons s rest ih =>
    intro init
    rw [List.foldl_cons, ih]
    simp only [specLenConcat, String.append_assoc]

/-! ## Claim theorems -/

/-- C3: for every `SymbolIdentity S`, the mangling pre-string of
`NormalizedSymbol::from_identity(S)` is `"_ZN"` followed by, for each
segment of `[S.crate_name] ++ S.module_path ++ [S.item_name]` in order, the
decimal length of the segment immediately followed by the segment. -/
theorem mangled_encoding_spec (identity : SymbolIdentity) :
    (NormalizedSymbol.from_identity identity).manglePre =
      "_ZN" ++ specLenConcat
        ([identity.crate_name] ++ identity.module_path ++ [identity.item_name]) := by
  exact foldl_encode
    ([identity.crate_name] ++ identity.module_path ++ [identity.item_name]) "_ZN"

/-- C5: gating is monotone (a view advertised under Strict is advertised
under Lenient with the same channel; a view runnable on Stable is runnable
on Nightly), and a view is advertised exactly when `requires_nightly`
implies that the channel is nightly-like or the mode is Lenient. -/
theorem gating_monotonicity (view : InspectionView) (channel : ToolchainChannel) :
    (is_view_advertised view channel GatingMode.Strict = true →
      is_view_advertised view channel GatingMode.Lenient = true) ∧
    (is_view_runnable view ToolchainChannel.Stable = true →
      is_view_runnable view ToolchainChannel.Nightly = true) ∧
    (∀ mode : GatingMode,
      is_view_advertised view channel mode = true ↔
        (view.requires_nightly = true →
          (channel.is_nightly_like = true ∨ mode = GatingMode.Lenient))) := by
  obtain ⟨vn, vd, rn, ve, vu⟩ := view
  refine ⟨?_, ?_, ?_⟩
  · cases rn <;> cases channel <;>
      simp [is_view_advertised, GatingMode.isStrict, ToolchainChannel.is_nightly_like]
  · cases rn <;>
      simp [is_view_runnable, ToolchainChannel.is_nightly_like]
  · intro mode
    cases rn <;> cases channel <;> cases mode <;>
      simp [is_view_advertised, GatingMode.isStrict, ToolchainChannel.is_nightly_like]

/-- Witness for C5 at the `def` view on a stable toolchain. -/
theorem gating_monotonicity_witness :
    is_view_advertised
      { name := "def", description := "Definition location and symbol identity",
        requires_nightly := false, emit := none, unpretty := none }
      ToolchainChannel.Stable GatingMode.Lenient = true ∧
    is_view_runnable
      { name := "def", description := "Definition location and symbol identity",
        requires_nightly := false, emit := none, unpretty := none }
      ToolchainChannel.Nightly = true :=
  ⟨(gating_monotonicity _ ToolchainChannel.Stable).1 (by decide),
   (gating_monotonicity _ ToolchainChannel.Stable).2.1 (by decide)⟩

/-- C6: the command vector built by `CompilerRunner::run` always contains
the `--` separator — also when `opt_level`, `emit` and `unpretty` are all
absent — and decomposes as the pre-separator flags, then `--`, then (each
when present, in this order) `-Copt-level=<opt>`, `--emit=<emit>`,
`-Zunpretty=<unpretty>`, and the additional rustc args. -/
theorem run_command_separator (request : RunRequest) :
    build_command_line request =
      ["cargo", "rustc", "--offline"] ++
        (match request.manifest_path with
         | some p => ["--manifest-path", p]
         | none => []) ++
        (match request.package with
         | some p => ["--package", p]
         | none => []) ++
        (match request.target_triple with
         | some t => ["--target", t]
         | none => []) ++
      ["--"] ++
        (match request.opt_level with
         | some o => ["-Copt-level=" ++ o]
         | none => []) ++
        (match request.emit with
         | some e => ["--emit=" ++ e]
         | none => []) ++
        (match request.unpretty with
         | some u => ["-Zunpretty=" ++ u]
         | none => []) ++
        request.additional_rustc_args ∧
    "--" ∈ build_command_line request := by
  obtain ⟨mp, pk, tt, ol, em, up, args, env⟩ := request
  constructor
  · cases mp <;> cases pk <;> cases tt <;> cases ol <;> cases em <;> cases up <;>
      simp [build_command_line]
  · cases mp <;> cases pk <;> cases tt <;> cases ol <;> cases em <;> cases up <;>
      simp [build_command_line]

/-- C7: `diff_paths` returns exactly the post-run paths absent from the
pre-run snapshot, each joined under the artifact root, and no pre-run path
ever appears in the result. -/
theorem artifact_diff_spec (before after : Finset (List String)) (root : List String) :
    (∀ p : List String, p ∈ diff_paths before after root ↔
      ∃ rel, rel ∈ after ∧ rel ∉ before ∧ p = root ++ rel) ∧
    (∀ rel : List String, rel ∈ before →
      root ++ rel ∉ diff_paths before after root) := by
  have h1 : ∀ p : List String, p ∈ diff_paths before after root ↔
      ∃ rel, rel ∈ after ∧ rel ∉ before ∧ p = root ++ rel := by
    intro p
    simp only [diff_paths, Finset.mem_image, Finset.mem_sdiff]
    constructor
    · rintro ⟨rel, ⟨ha, hb⟩, heq⟩
      exact ⟨rel, ha, hb, heq.symm⟩
    · rintro ⟨rel, ha, hb, heq⟩
      exact ⟨rel, ⟨ha, hb⟩, heq.symm⟩
  refine ⟨h1, ?_⟩
  intro rel hrel hmem
  obtain ⟨rel2, _, h3, h4⟩ := (h1 _).1 hmem
  exact h3 (List.append_cancel_left h4 ▸ hrel)

/-- Witness for C7 on a two-file artifact directory. -/
theorem artifact_diff_spec_witness :
    ["target", "mcp-inspections", "demo.ll"] ∈
      diff_paths {["old.ll"]} {["old.ll"], ["demo.ll"]}
        ["target", "mcp-inspections"] ∧
    ["target", "mcp-inspections", "old.ll"] ∉
      diff_paths {["old.ll"]} {["old.ll"], ["demo.ll"]}
        ["target", "mcp-inspections"] :=
  ⟨((artifact_diff_spec _ _ _).1 _).2 ⟨["demo.ll"], by decide, by decide, rfl⟩,
   (artifact_diff_spec _ _ _).2 ["old.ll"] (by decide)⟩

/-- Counterexample to C8: the containment test does NOT treat the range end
as exclusive — a position equal to the range's end is contained. -/
theorem position_end_contained :
    position_in_range
      { start := { line := 0, character := 0 },
        endPos := { line := 0, character := 5 } }
      { line := 0, character := 5 } = true := by decide

/-- C8 (amended): `position_in_range` treats both bounds inclusively: it
holds exactly when `start ≤ position ≤ end` in line-then-character order; in
particular a position equal to the range's start, or equal to its end, is
contained whenever the range is non-degenerate (`start ≤ end`). -/
theorem position_in_range_inclusive (range : Range) (position : Position) :
    (position_in_range range position = true ↔
      posLe range.start position ∧ posLe position range.endPos) ∧
    (position_in_range range range.start = true ↔
      posLe range.start range.endPos) ∧
    (position_in_range range range.endPos = true ↔
      posLe range.start range.endPos) := by
  have key : ∀ q : Position, position_in_range range q = true ↔
      posLe range.start q ∧ posLe q range.endPos := by
    intro q
    simp only [position_in_range, posLe, Bool.and_eq_true, Bool.or_eq_true,
      decide_eq_true_eq, ge_iff_le, gt_iff_lt]
    omega
  refine ⟨key position, ?_, ?_⟩
  · rw [key range.start]
    exact and_iff_right (Or.inr ⟨rfl, le_refl _⟩)
  · rw [key range.endPos]
    exact and_iff_left (Or.inr ⟨rfl, le_refl _⟩)

/-- C9: with an explicit `symbol_name`, `resolve_normalized_symbol`
overrides the innermost segment before normalization, so the def-name and
the mangling pre-string are re-derived from the overridden identity. -/
theorem symbol_name_override (identity : SymbolIdentity) (name : String)
    (target : Option String) :
    (resolve_symbol_tail identity (some name) target).item_name = name ∧
    (resolve_symbol_tail identity (some name) target).def_name =
      String.intercalate "::"
        ([identity.crate_name] ++ identity.module_path ++ [name]) ∧
    (resolve_symbol_tail identity (some name) target).manglePre =
      encodeRustMangled
        ([identity.crate_name] ++ identity.module_path ++ [name]) ∧
    (resolve_symbol_tail identity (some name) target).target = target := by
  cases target <;>
    simp [resolve_symbol_tail, NormalizedSymbol.from_identity,
      NormalizedSymbol.with_target]

/-- C10: parsing `MCP_GATING_MODE` is ASCII-case-insensitive, `"LENIENT"`
parses as Lenient, and any value that is not a case variant of `"strict"` or
`"lenient"` — as well as an unset variable — defaults to Strict. -/
theorem gating_env_default :
    (∀ s t : String, asciiLowerStr s = asciiLowerStr t →
      GatingMode.from_str s = GatingMode.from_str t) ∧
    GatingMode.from_str "LENIENT" = some GatingMode.Lenient ∧
    (∀ v : String, asciiLowerStr v ≠ "strict" → asciiLowerStr v ≠ "lenient" →
      default_gating_mode_from_env (some v) = GatingMode.Strict) ∧
    default_gating_mode_from_env none = GatingMode.Strict := by
  refine ⟨?_, by decide, ?_, rfl⟩
  · intro s t h
    simp only [GatingMode.from_str, h]
  · intro v h1 h2
    simp [default_gating_mode_from_env, GatingMode.from_str, h1, h2]

/-- Witness for C10: two case variants of `"strict"` parse alike, and an
unrecognized value defaults to Strict. -/
theorem gating_env_default_witness :
    GatingMode.from_str "Strict" = GatingMode.from_str "STRICT" ∧
    default_gating_mode_from_env (some "permissive") = GatingMode.Strict :=
  ⟨gating_env_default.1 "Strict" "STRICT" (by decide),
   gating_env_default.2.2.1 "permissive" (by decide) (by decide)⟩

theorem select_ok_mem (cands : List Candidate) (what : String)
    (symbol : NormalizedSymbol) (s : String)
    (h : select_unique_match cands what symbol = .ok s) :
    ∃ c ∈ cands, s = c.content := by
  match cands with
  | [] => simp [select_unique_match] at h
  | [m] =>
    simp [select_unique_match] at h
    exact ⟨m, by simp, h.symm⟩
  | a :: b :: rest => simp [select_unique_match] at h

theorem mirTiers_fst_mem (symbol : NormalizedSymbol) :
    ∀ (blocks : List String), ∀ c ∈ (mirTiers blocks symbol).1,
      ∃ b ∈ blocks, scontains b symbol.def_name = true ∧ c.content = b := by
  intro blocks
  induction blocks with
  | nil => simp [mirTiers]
  | cons b rest ih =>
    intro c hc
    by_cases h1 : scontains b symbol.def_name = true
    · simp only [mirTiers, h1, if_true] at hc
      rcases List.mem_cons.1 hc with h | h
      · exact ⟨b, by simp, h1, by rw [h]⟩
      · obtain ⟨b2, hb2, h3, h4⟩ := ih c h
        exact ⟨b2, by simp [hb2], h3, h4⟩
    · by_cases h2 : scontains b symbol.item_name = true
      · simp only [mirTiers, h1, h2, if_true, if_false, Bool.false_eq_true] at hc
        obtain ⟨b2, hb2, h3, h4⟩ := ih c hc
        exact ⟨b2, by simp [hb2], h3, h4⟩
      · simp only [mirTiers, h1, h2, if_false, Bool.false_eq_true] at hc
        obtain ⟨b2, hb2, h3, h4⟩ := ih c hc
        exact ⟨b2, by simp [hb2], h3, h4⟩

theorem mirTiers_fst_ne (symbol : NormalizedSymbol) :
    ∀ (blocks : List String),
      (∃ b ∈ blocks, scontains b symbol.def_name = true) →
      (mirTiers blocks symbol).1 ≠ [] := by
  intro blocks
  induction blocks with
  | nil => simp
  | cons b0 rest ih =>
    rintro ⟨b, hmem, h1⟩
    rcases List.mem_cons.1 hmem with rfl | hmem2
    · simp [mirTiers, h1]
    · have hne := ih ⟨b, hmem2, h1⟩
      by_cases c1 : scontains b0 symbol.def_name = true
      · simp [mirTiers, c1]
      · by_cases c2 : scontains b0 symbol.item_name = true
        · simpa [mirTiers, c1, c2] using hne
        · simpa [mirTiers, c1, c2] using hne

theorem llvmTiers_fst_mem (symbol : NormalizedSymbol) :
    ∀ (blocks : List (String × String)), ∀ c ∈ (llvmTiers blocks symbol).1,
      ∃ nb ∈ blocks, llvmTier1 symbol nb = true ∧
        c.header = nb.1 ∧ c.content = nb.2 := by
  intro blocks
  induction blocks with
  | nil => simp [llvmTiers]
  | cons nb0 rest ih =>
    intro c hc
    by_cases c1 : llvmTier1 symbol nb0 = true
    · simp only [llvmTiers, c1, if_true] at hc
      rcases List.mem_cons.1 hc with h | h
      · exact ⟨nb0, by simp, c1, by rw [h], by rw [h]⟩
      · obtain ⟨nb2, hnb2, h3, h4, h5⟩ := ih c h
        exact ⟨nb2, by simp [hnb2], h3, h4, h5⟩
    · by_cases c2 : llvmTier2 symbol nb0 = true
      · simp only [llvmTiers, c1, c2, if_true, if_false, Bool.false_eq_true] at hc
        obtain ⟨nb2, hnb2, h3, h4, h5⟩ := ih c hc
        exact ⟨nb2, by simp [hnb2], h3, h4, h5⟩
      · by_cases c3 : llvmTier3 symbol nb0 = true
        · simp only [llvmTiers, c1, c2, c3, if_true, if_false, Bool.false_eq_true] at hc
          obtain ⟨nb2, hnb2, h3, h4, h5⟩ := ih c hc
          exact ⟨nb2, by simp [hnb2], h3, h4, h5⟩
        · simp only [llvmTiers, c1, c2, c3, if_false, Bool.false_eq_true] at hc
          obtain ⟨nb2, hnb2, h3, h4, h5⟩ := ih c hc
          exact ⟨nb2, by simp [hnb2], h3, h4, h5⟩

theorem llvmTiers_fst_ne (symbol : NormalizedSymbol) :
    ∀ (blocks : List (String × String)),
      (∃ nb ∈ blocks, llvmTier1 symbol nb = true) →
      (llvmTiers blocks symbol).1 ≠ [] := by
  intro blocks
  induction blocks with
  | nil => simp
  | cons nb0 rest ih =>
    rintro ⟨nb, hmem, h1⟩
    rcases List.mem_cons.1 hmem with rfl | hmem2
    · simp [llvmTiers, h1]
    · have hne := ih ⟨nb, hmem2, h1⟩
      by_cases c1 : llvmTier1 symbol nb0 = true
      · simp [llvmTiers, c1]
      · by_cases c2 : llvmTier2 symbol nb0 = true
        · simpa [llvmTiers, c1, c2] using hne
        · by_cases c3 : llvmTier3 symbol nb0 = true
          · simpa [llvmTiers, c1, c2, c3] using hne
          · simpa [llvmTiers, c1, c2, c3] using hne

theorem asmTiers_fst_mem (symbol : NormalizedSymbol) :
    ∀ (blocks : List (String × String)), ∀ c ∈ (asmTiers blocks symbol).1,
      ∃ lb ∈ blocks, asmTier1 symbol lb = true ∧
        c.header = lb.1 ∧ c.content = lb.2 := by
  intro blocks
  induction blocks with
  | nil => simp [asmTiers]
  | cons lb0 rest ih =>
    intro c hc
    by_cases c1 : asmTier1 symbol lb0 = true
    · simp only [asmTiers, c1, if_true] at hc
      rcases List.mem_cons.1 hc with h | h
      · exact ⟨lb0, by simp, c1, by rw [h], by rw [h]⟩
      · obtain ⟨lb2, hlb2, h3, h4, h5⟩ := ih c h
        exact ⟨lb2, by simp [hlb2], h3, h4, h5⟩
    · by_cases c2 : asmTier2 symbol lb0 = true
      · simp only [asmTiers, c1, c2, if_true, if_false, Bool.false_eq_true] at hc
        obtain ⟨lb2, hlb2, h3, h4, h5⟩ := ih c hc
        exact ⟨lb2, by simp [hlb2], h3, h4, h5⟩
      · by_cases c3 : asmTier3 symbol lb0 = true
        · simp only [asmTiers, c1, c2, c3, if_true, if_false, Bool.false_eq_true] at hc
          obtain ⟨lb2, hlb2, h3, h4, h5⟩ := ih c hc
          exact ⟨lb2, by simp [hlb2], h3, h4, h5⟩
        · simp only [asmTiers, c1, c2, c3, if_false, Bool.false_eq_true] at hc
          obtain ⟨lb2, hlb2, h3, h4, h5⟩ := ih c hc
          exact ⟨lb2, by simp [hlb2], h3, h4, h5⟩

theorem asmTiers_fst_ne (symbol : NormalizedSymbol) :
    ∀ (blocks : List (String × String)),
      (∃ lb ∈ blocks, asmTier1 symbol lb = true) →
      (asmTiers blocks symbol).1 ≠ [] := by
  intro blocks
  induction blocks with
  | nil => simp
  | cons lb0 rest ih =>
    rintro ⟨lb, hmem, h1⟩
    rcases List.mem_cons.1 hmem with rfl | hmem2
    · simp [asmTiers, h1]
    · have hne := ih ⟨lb, hmem2, h1⟩
      by_cases c1 : asmTier1 symbol lb0 = true
      · simp [asmTiers, c1]
      · by_cases c2 : asmTier2 symbol lb0 = true
        · simpa [asmTiers, c1, c2] using hne
        · by_cases c3 : asmTier3 symbol lb0 = true
          · simpa [asmTiers, c1, c2, c3] using hne
          · simpa [asmTiers, c1, c2, c3] using hne

/-- C2: tier exclusivity. If a Tier-1 match exists (a def-name match for
MIR; an exact mangled match for LLVM IR or assembly), then any block the
extractor returns is itself a Tier-1 block — a block matching only Tier 2 or
Tier 3 is never returned, even when present. -/
theorem tier_exclusivity (symbol : NormalizedSymbol) :
    (∀ (mir_outputs : List String) (s : String),
      (∃ b ∈ mir_outputs.flatMap split_mir_blocks,
        scontains b symbol.def_name = true) →
      extract_mir mir_outputs symbol = .ok s →
      ∃ b ∈ mir_outputs.flatMap split_mir_blocks,
        scontains b symbol.def_name = true ∧ s = b) ∧
    (∀ (llvm_outputs : List String) (m s : String),
      symbol.mangled = some m →
      (∃ nb ∈ llvm_outputs.flatMap split_llvm_blocks,
        scontains nb.1 m = true) →
      extract_llvm_ir llvm_outputs symbol = .ok s →
      ∃ nb ∈ llvm_outputs.flatMap split_llvm_blocks,
        scontains nb.1 m = true ∧ s = nb.2) ∧
    (∀ (assemblies : List TargetedAssembly) (t m s : String),
      symbol.mangled = some m →
      (∃ lb ∈ asmTargetBlocks assemblies t, scontains lb.1 m = true) →
      extract_asm assemblies symbol t = .ok s →
      ∃ lb ∈ asmTargetBlocks assemblies t,
        scontains lb.1 m = true ∧ s = lb.2) := by
  refine ⟨?_, ?_, ?_⟩
  · intro outs s hex hok
    have hne := mirTiers_fst_ne symbol (outs.flatMap split_mir_blocks) hex
    have hfalse : (mirTiers (outs.flatMap split_mir_blocks) symbol).1.isEmpty = false := by
      simp [List.isEmpty_eq_false, hne]
    have heq : extract_mir outs symbol =
        select_unique_match (mirTiers (outs.flatMap split_mir_blocks) symbol).1
          "MIR" symbol := by
      simp [extract_mir, hfalse]
    rw [heq] at hok
    obtain ⟨c, hc, hs⟩ := select_ok_mem _ _ _ _ hok
    obtain ⟨b, hb, h1, h2⟩ := mirTiers_fst_mem symbol _ c hc
    exact ⟨b, hb, h1, by rw [hs, h2]⟩
  · intro outs m s hm hex hok
    have hex1 : ∃ nb ∈ outs.flatMap split_llvm_blocks, llvmTier1 symbol nb = true := by
      obtain ⟨nb, h1, h2⟩ := hex
      exact ⟨nb, h1, by simp [llvmTier1, hm, h2]⟩
    have hne := llvmTiers_fst_ne symbol (outs.flatMap split_llvm_blocks) hex1
    have hfalse : (llvmTiers (outs.flatMap split_llvm_blocks) symbol).1.isEmpty = false := by
      simp [List.isEmpty_eq_false, hne]
    have heq : extract_llvm_ir outs symbol =
        select_unique_match (llvmTiers (outs.flatMap split_llvm_blocks) symbol).1
          "LLVM IR" symbol := by
      simp [extract_llvm_ir, hfalse]
    rw [heq] at hok
    obtain ⟨c, hc, hs⟩ := select_ok_mem _ _ _ _ hok
    obtain ⟨nb, hnb, h1, h2, h3⟩ := llvmTiers_fst_mem symbol _ c hc
    refine ⟨nb, hnb, ?_, by rw [hs, h3]⟩
    simpa [llvmTier1, hm] using h1
  · intro assemblies t m s hm hex hok
    have hex1 : ∃ lb ∈ asmTargetBlocks assemblies t, asmTier1 symbol lb = true := by
      obtain ⟨lb, h1, h2⟩ := hex
      exact ⟨lb, h1, by simp [asmTier1, hm, h2]⟩
    have hne := asmTiers_fst_ne symbol (asmTargetBlocks assemblies t) hex1
    have hfalse : (asmTiers (asmTargetBlocks assemblies t) symbol).1.isEmpty = false := by
      simp [List.isEmpty_eq_false, hne]
    have hrel : (relevantAssemblies assemblies t).isEmpty = false := by
      obtain ⟨lb, h1, _⟩ := hex
      rcases List.mem_flatMap.1 h1 with ⟨asm, hasm, _⟩
      have : relevantAssemblies assemblies t ≠ [] := by
        intro hnil
        rw [asmTargetBlocks, hnil] at h1
        simp at h1
      simp [List.isEmpty_eq_false, this]
    have heq : extract_asm assemblies symbol t =
        select_unique_match (asmTiers (asmTargetBlocks assemblies t) symbol).1
          "assembly" symbol := by
      simp [extract_asm, hrel, hfalse]
    rw [heq] at hok
    obtain ⟨c, hc, hs⟩ := select_ok_mem _ _ _ _ hok
    obtain ⟨lb, hlb, h1, h2, h3⟩ := asmTiers_fst_mem symbol _ c hc
    refine ⟨lb, hlb, ?_, by rw [hs, h3]⟩
    simpa [asmTier1, hm] using h1

/-- Witness for C2: on the demo MIR artifact, where a def-name (Tier-1)
match exists, the extractor returns that Tier-1 block. -/
theorem tier_exclusivity_witness :
    extract_mir [demoMir] demoSymbol =
      Except.ok "fn demo::utils::do_thing(_1: i32) -> i32 \x7b\n    bb0: \x7b\n        _0 = _1;\n        return;\n    \x7d\n\x7d" := by
  have happ := (tier_exclusivity demoSymbol).1 [demoMir]
    "fn demo::utils::do_thing(_1: i32) -> i32 \x7b\n    bb0: \x7b\n        _0 = _1;\n        return;\n    \x7d\n\x7d"
    ⟨"fn demo::utils::do_thing(_1: i32) -> i32 \x7b\n    bb0: \x7b\n        _0 = _1;\n        return;\n    \x7d\n\x7d",
     by decide, by decide⟩ (by decide)
  decide

theorem ladderSpec_two (w1 w2 we : String) (A B : List Candidate)
    (symbol : NormalizedSymbol) :
    ladderSpec [(w1, A), (w2, B)] we symbol =
      if !A.isEmpty then select_unique_match A w1 symbol
      else if !B.isEmpty then select_unique_match B w2 symbol
      else Except.error (noMatchMessage we symbol) := by
  rcases A with _ | ⟨a, ta⟩
  · rcases B with _ | ⟨b, tb⟩
    · simp [ladderSpec, select_unique_match, List.find?]
    · rcases tb with _ | ⟨b2, tb2⟩ <;>
        simp [ladderSpec, select_unique_match, List.find?]
  · rcases ta with _ | ⟨a2, ta2⟩ <;>
      simp [ladderSpec, select_unique_match, List.find?]

theorem ladderSpec_three (w1 w2 w3 we : String) (A B C : List Candidate)
    (symbol : NormalizedSymbol) :
    ladderSpec [(w1, A), (w2, B), (w3, C)] we symbol =
      if !A.isEmpty then select_unique_match A w1 symbol
      else if !B.isEmpty then select_unique_match B w2 symbol
      else if !C.isEmpty then select_unique_match C w3 symbol
      else Except.error (noMatchMessage we symbol) := by
  rcases A with _ | ⟨a, ta⟩
  · rcases B with _ | ⟨b, tb⟩
    · rcases C with _ | ⟨c, tc⟩
      · simp [ladderSpec, select_unique_match, List.find?]
      · rcases tc with _ | ⟨c2, tc2⟩ <;>
          simp [ladderSpec, select_unique_match, List.find?]
    · rcases tb with _ | ⟨b2, tb2⟩ <;>
        simp [ladderSpec, select_unique_match, List.find?]
  · rcases ta with _ | ⟨a2, ta2⟩ <;>
      simp [ladderSpec, select_unique_match, List.find?]

/-- C1 (amended): each extractor selects from the first non-empty tier and
then returns the single candidate's content, the no-match error enumerating
the names looked for when every tier is empty, or the ambiguity error
listing the candidate headers — except that `extract_asm`, when no assembly
carries the requested target triple, fails with the distinct
no-assembly-artifacts-for-target error instead. -/
theorem extraction_ladder (symbol : NormalizedSymbol) :
    (∀ mir_outputs : List String,
      extract_mir mir_outputs symbol =
        ladderSpec
          [("MIR", (mirTiers (mir_outputs.flatMap split_mir_blocks) symbol).1),
           ("MIR", (mirTiers (mir_outputs.flatMap split_mir_blocks) symbol).2)]
          "MIR" symbol) ∧
    (∀ llvm_outputs : List String,
      extract_llvm_ir llvm_outputs symbol =
        ladderSpec
          [("LLVM IR",
            (llvmTiers (llvm_outputs.flatMap split_llvm_blocks) symbol).1),
           ("LLVM IR (prefix)",
            (llvmTiers (llvm_outputs.flatMap split_llvm_blocks) symbol).2.1),
           ("LLVM IR",
            (llvmTiers (llvm_outputs.flatMap split_llvm_blocks) symbol).2.2)]
          "LLVM IR" symbol) ∧
    (∀ (assemblies : List TargetedAssembly) (t : String),
      relevantAssemblies assemblies t = [] →
        extract_asm assemblies symbol t =
          Except.error (noTargetMessage t symbol)) ∧
    (∀ (assemblies : List TargetedAssembly) (t : String),
      relevantAssemblies assemblies t ≠ [] →
        extract_asm assemblies symbol t =
          ladderSpec
            [("assembly", (asmTiers (asmTargetBlocks assemblies t) symbol).1),
             ("assembly (prefix)",
              (asmTiers (asmTargetBlocks assemblies t) symbol).2.1),
             ("assembly", (asmTiers (asmTargetBlocks assemblies t) symbol).2.2)]
            "assembly" symbol) := by
  refine ⟨?_, ?_, ?_, ?_⟩
  · intro outs
    rw [ladderSpec_two]
    by_cases h1 : (mirTiers (outs.flatMap split_mir_blocks) symbol).1.isEmpty = true
    · by_cases h2 : (mirTiers (outs.flatMap split_mir_blocks) symbol).2.isEmpty = true
      · have hA := List.isEmpty_iff.mp h1
        have hB := List.isEmpty_iff.mp h2
        simp [extract_mir, h1, h2, hA, hB, select_unique_match]
      · simp [extract_mir, h1, h2]
    · simp [extract_mir, h1]
  · intro outs
    rw [ladderSpec_three]
    by_cases h1 : (llvmTiers (outs.flatMap split_llvm_blocks) symbol).1.isEmpty = true
    · by_cases h2 : (llvmTiers (outs.flatMap split_llvm_blocks) symbol).2.1.isEmpty = true
      · by_cases h3 : (llvmTiers (outs.flatMap split_llvm_blocks) symbol).2.2.isEmpty = true
        · have hC := List.isEmpty_iff.mp h3
          simp [extract_llvm_ir, h1, h2, h3, hC, select_unique_match]
        · simp [extract_llvm_ir, h1, h2, h3]
      · simp [extract_llvm_ir, h1, h2]
    · simp [extract_llvm_ir, h1]
  · intro assemblies t hrel
    have hT : (relevantAssemblies assemblies t).isEmpty = true := by
      simp [List.isEmpty_iff, hrel]
    simp [extract_asm, hT]
  · intro assemblies t hrel
    have hF : (relevantAssemblies assemblies t).isEmpty = false := by
      simp [List.isEmpty_eq_false, hrel]
    rw [ladderSpec_three]
    by_cases h1 : (asmTiers (asmTargetBlocks assemblies t) symbol).1.isEmpty = true
    · by_cases h2 : (asmTiers (asmTargetBlocks assemblies t) symbol).2.1.isEmpty = true
      · by_cases h3 : (asmTiers (asmTargetBlocks assemblies t) symbol).2.2.isEmpty = true
        · have hC := List.isEmpty_iff.mp h3
          simp [extract_asm, hF, h1, h2, h3, hC, select_unique_match]
        · simp [extract_asm, hF, h1, h2, h3]
      · simp [extract_asm, hF, h1, h2]
    · simp [extract_asm, hF, h1]

/-- Counterexample to C1 as stated: with no assembly for the requested
target, every tier is empty, yet `extract_asm` returns the
no-assembly-artifacts error — which does not enumerate the names looked for
(it never mentions the item name) and differs from the no-match error. -/
theorem extract_asm_no_target_not_enumerating :
    extract_asm [] demoSymbol "x86_64-unknown-linux-gnu" =
      Except.error "No assembly artifacts available for target `x86_64-unknown-linux-gnu` while searching for `demo::utils::do_thing`" ∧
    scontains "No assembly artifacts available for target `x86_64-unknown-linux-gnu` while searching for `demo::utils::do_thing`"
      "item name" = false ∧
    Except.error (noMatchMessage "assembly" demoSymbol) ≠
      extract_asm [] demoSymbol "x86_64-unknown-linux-gnu" := by
  refine ⟨by decide, by decide, by decide⟩

/-- Witness for C1: the no-target branch at a concrete input, and a
concrete run through the ladder selecting the unique Tier-1 assembly
candidate. -/
theorem extraction_ladder_witness :
    extract_asm [] demoSymbol "x86_64-unknown-linux-gnu" =
      Except.error (noTargetMessage "x86_64-unknown-linux-gnu" demoSymbol) ∧
    extract_asm [demoAsm]
      (demoSymbol.with_mangled "_ZN4demo5utils8do_thing17h1234abcdE")
      "x86_64-unknown-linux-gnu" =
      Except.ok "_ZN4demo5utils8do_thing17h1234abcdE:\n    retq" := by
  refine ⟨(extraction_ladder demoSymbol).2.2.1 [] "x86_64-unknown-linux-gnu" (by decide), ?_⟩
  have happ :=
    (extraction_ladder
        (demoSymbol.with_mangled "_ZN4demo5utils8do_thing17h1234abcdE")).2.2.2
      [demoAsm] "x86_64-unknown-linux-gnu" (by decide)
  decide

theorem keepLinesGo_le (maxB maxL : Nat) :
    ∀ (lines : List String) (kb kl : Nat), kb ≤ maxB → kl ≤ maxL →
      (keepLinesGo lines maxB maxL kb kl).1 ≤ maxB ∧
      (keepLinesGo lines maxB maxL kb kl).2.1 ≤ maxL := by
  intro lines
  induction lines with
  | nil =>
    intro kb kl h1 h2
    exact ⟨h1, h2⟩
  | cons line rest ih =>
    intro kb kl h1 h2
    by_cases hc : kb + byteLen (line ++ "\n") > maxB ∨ kl + 1 > maxL
    · simp only [keepLinesGo, if_pos hc]
      exact ⟨h1, h2⟩
    · simp only [keepLinesGo, if_neg hc]
      exact ih (kb + byteLen (line ++ "\n")) (kl + 1) (by omega) (by omega)

theorem keepLinesGo_shape (maxB maxL : Nat) :
    ∀ (lines : List String) (kb kl : Nat),
      ∃ k, k ≤ lines.length ∧
        (keepLinesGo lines maxB maxL kb kl).2.2 = lines.take k ∧
        (keepLinesGo lines maxB maxL kb kl).2.1 = kl + k ∧
        (keepLinesGo lines maxB maxL kb kl).1 = kb + sumB (lines.take k) ∧
        (k < lines.length →
          kb + sumB (lines.take (k + 1)) > maxB ∨ kl + (k + 1) > maxL) := by
  intro lines
  induction lines with
  | nil =>
    intro kb kl
    exact ⟨0, by simp [keepLinesGo, sumB]⟩
  | cons line rest ih =>
    intro kb kl
    by_cases hc : kb + byteLen (line ++ "\n") > maxB ∨ kl + 1 > maxL
    · refine ⟨0, by simp, ?_, ?_, ?_, ?_⟩
      · simp [keepLinesGo, hc]
      · simp [keepLinesGo, hc]
      · simp [keepLinesGo, hc, sumB]
      · intro _
        simp only [List.take_succ_cons, List.take_zero, sumB]
        omega
    · obtain ⟨k, hk, hout, hkl, hkb, hmax⟩ :=
        ih (kb + byteLen (line ++ "\n")) (kl + 1)
      refine ⟨k + 1, ?_, ?_, ?_, ?_, ?_⟩
      · simpa using Nat.succ_le_succ hk
      · simp [keepLinesGo, hc, hout]
      · simp only [keepLinesGo, if_neg hc, hkl]
        omega
      · simp only [keepLinesGo, if_neg hc, hkb, List.take_succ_cons, sumB]
        omega
      · intro hlt
        have hrec := hmax (by simpa using Nat.lt_of_succ_lt_succ hlt)
        simp only [List.take_succ_cons, sumB] at hrec ⊢
        omega

/-- C4: if the text fits both limits, `truncate_with_limits` returns it
unchanged, untruncated, with no summary; otherwise it returns the maximal
prefix of whole lines whose cumulative size (a newline counted per line)
stays within both bounds, followed by the single marker line, together with
a summary whose `kept_lines`/`kept_bytes` respect the limits and exclude
the marker. -/
theorem truncation_spec (text : String) (limits : InspectionLimits) :
    (byteLen text ≤ limits.max_output_bytes ∧
        (rustLines text).length ≤ limits.max_output_lines →
      truncate_with_limits text limits = (text, false, none)) ∧
    (¬(byteLen text ≤ limits.max_output_bytes ∧
        (rustLines text).length ≤ limits.max_output_lines) →
      keptCount text limits ≤ (rustLines text).length ∧
      keptCount text limits ≤ limits.max_output_lines ∧
      sumB ((rustLines text).take (keptCount text limits)) ≤
        limits.max_output_bytes ∧
      truncate_with_limits text limits =
        (String.join (((rustLines text).take (keptCount text limits)).map
            (fun line => line ++ "\n")) ++
          truncationMarker (keptCount text limits)
            (sumB ((rustLines text).take (keptCount text limits)))
            (rustLines text).length (byteLen text)
            limits.max_output_lines limits.max_output_bytes,
         true,
         some { original_bytes := byteLen text,
                original_lines := (rustLines text).length,
                kept_bytes := sumB ((rustLines text).take (keptCount text limits)),
                kept_lines := keptCount text limits,
                max_bytes := limits.max_output_bytes,
                max_lines := limits.max_output_lines }) ∧
      (keptCount text limits < (rustLines text).length →
        sumB ((rustLines text).take (keptCount text limits + 1)) >
            limits.max_output_bytes ∨
          keptCount text limits + 1 > limits.max_output_lines)) := by
  constructor
  · intro h
    simp [truncate_with_limits, h]
  · intro h
    obtain ⟨k, hk, hout, hkl, hkb, hmax⟩ :=
      keepLinesGo_shape limits.max_output_bytes limits.max_output_lines
        (rustLines text) 0 0
    have hkc : keptCount text limits = k := by
      simpa [keptCount] using hkl
    have hbounds :=
      keepLinesGo_le limits.max_output_bytes limits.max_output_lines
        (rustLines text) 0 0 (Nat.zero_le _) (Nat.zero_le _)
    refine ⟨?_, ?_, ?_, ?_, ?_⟩
    · rw [hkc]; exact hk
    · exact hbounds.2
    · have h1 := hbounds.1
      rw [hkb] at h1
      rw [hkc]
      omega
    · simp only [truncate_with_limits, if_neg h]
      rw [hout, hkl, hkb, hkc]
      simp
    · intro hlt
      rw [hkc] at hlt ⊢
      have := hmax hlt
      simpa using this

/-- Witness for C4: a fitting text is returned unchanged; a three-line text
under a two-line limit keeps two whole lines and appends the marker. -/
theorem truncation_spec_witness :
    truncate_with_limits "ab"
      { timeout_seconds := 60, max_output_bytes := 100, max_output_lines := 10 } =
      ("ab", false, none) ∧
    truncate_with_limits "ab\ncd\nef"
      { timeout_seconds := 60, max_output_bytes := 100, max_output_lines := 2 } =
      ("ab\ncd\n\n[truncated after 2 lines/6 bytes; original 3 lines/8 bytes; limits 2 lines/100 bytes]",
       true,
       some { original_bytes := 8, original_lines := 3, kept_bytes := 6,
              kept_lines := 2, max_bytes := 100, max_lines := 2 }) := by
  constructor
  · exact (truncation_spec "ab" _).1 (by decide)
  · have happ := ((truncation_spec "ab\ncd\nef"
      { timeout_seconds := 60, max_output_bytes := 100, max_output_lines := 2 }).2
        (by decide)).2.2.2.1
    decide
